import Mathlib

/-!
# Verification of the uraaka-joshi extractor core

A shallow embedding of `gallery_dl/extractor/uraakajoshi.py`:
the paginated timeline client (`UraakajoshiAPI`), the media-metadata
resolution helpers of `UraakajoshiExtractor`, the profile-image
de-duplication, and the hashtag fan-out view.  Python dictionaries read
from JSON are modelled as structures with `Option` fields (a `none`
models an absent key; Python truthiness of strings/ints is made
explicit), generators are modelled as functions returning the list of
produced elements, and the network is modelled as a function from page
numbers to decode outcomes.
-/

namespace Uraakajoshi

/-- `UraakajoshiExtractor.root`. -/
def root : String := "https://www.uraaka-joshi.com"

/-! ## Page-name buckets (`UraakajoshiAPI._calculate_page_name`) -/

/-- Zero-padding of a decimal string to width `w` (the `0`-fill of
Python's `format(n, "06d")`). -/
def zeroPad (w : Nat) (s : String) : String :=
  String.mk (List.replicate (w - s.length) '0') ++ s

/-- Python `f"{n:06d}"`: for a negative `n` the sign participates in the
width, otherwise the digits are left-padded with zeros to width 6. -/
def intFormat06 (n : Int) : String :=
  if n < 0 then "-" ++ zeroPad 5 (toString n.natAbs) else zeroPad 6 (toString n.toNat)

/-- The page bucket `(page_no // 1000) * 1000 + 999` (Python `//` is
floor division, hence `Int.fdiv`). -/
def pageBucket (pageNo : Int) : Int :=
  (Int.fdiv pageNo 1000) * 1000 + 999

/-- `UraakajoshiAPI._calculate_page_name`:
`page_name_number = (page_no // 1000) * 1000 + 999`, formatted `"06d"`. -/
def calculatePageName (pageNo : Int) : String :=
  intFormat06 (pageBucket pageNo)

/-- The request-parameter dictionary built by
`UraakajoshiAPI._build_request_params` on top of the base parameters.
The wall-clock `time` value is an input (the embedding does not model
the clock). -/
structure TimelineRequestParams where
  page_name : String
  page_no : String
  time : String
deriving Repr, DecidableEq

/-- `UraakajoshiAPI._build_request_params` (the page-dependent part). -/
def buildRequestParams (pageNo : Int) (currentTime : String) : TimelineRequestParams :=
  { page_name := calculatePageName pageNo
    page_no := toString pageNo
    time := currentTime }

/-! ## The timeline pager (`UraakajoshiAPI._fetch_timeline`) -/

/-- A decoded timeline response: the JSON object
`{data: [...], current: ..., next: ...}`.  `data` is the `data` array
(`[]` also covers an absent/empty `data` key — both are falsy in
`data.get("data")`); `current`/`next` are `none` when the key is absent
(for `next`, a JSON `null` behaves identically: `data.get("next")`
yields `None` either way). -/
structure TimelineResponse (α : Type) where
  data : List α
  current : Option Int
  next : Option Int
deriving Repr, DecidableEq

/-- Outcome of `response.json()`: either a decoded object or a decode
failure (the `except` branch of `_make_timeline_request`). -/
inductive DecodeOutcome (α : Type) where
  | ok (r : TimelineResponse α)
  | failed
deriving Repr, DecidableEq

/-- `UraakajoshiAPI._make_timeline_request`: the `try/except` around
`response.json()` — a decode failure is caught (logged) and turned into
`None`; no exception escapes to the caller. -/
def makeTimelineRequest {α : Type} (outcome : DecodeOutcome α) : Option (TimelineResponse α) :=
  match outcome with
  | .ok r => some r
  | .failed => none

/-- `UraakajoshiAPI._has_next_page`:
`next_page and next_page > current_page` with
`current_page = data.get("current", 1)`.  A `next` of `None` (absent or
null) or `0` is falsy, so the `and` short-circuits to a falsy value. -/
def hasNextPage {α : Type} (r : TimelineResponse α) : Bool :=
  match r.next with
  | none => false
  | some n => if n = 0 then false else decide (r.current.getD 1 < n)

/-- The loop guard `if max_pages and page_no > (page_start + max_pages - 1)`:
a falsy `max_pages` (`None` or `0`) disables the limit. -/
def pageLimitExceeded (maxPages : Option Nat) (pageStart pageNo : Int) : Bool :=
  match maxPages with
  | none => false
  | some m => if m = 0 then false else decide (pageStart + (m : Int) - 1 < pageNo)

/-- The advancement expression `page_no = data.get("next", page_no + 1)`. -/
def nextPageNo {α : Type} (r : TimelineResponse α) (pageNo : Int) : Int :=
  (r.next).getD (pageNo + 1)

/-- Everything observable about one run of the `_fetch_timeline`
generator: the yielded records, the pages requested (in request order),
and the arguments of the successive `extractor._update_cursor` calls. -/
structure FetchResult (α : Type) where
  items : List α
  requests : List Int
  cursorUpdates : List (Option Int)
deriving Repr, DecidableEq

/-- The `while True` loop of `UraakajoshiAPI._fetch_timeline`, starting
at page `pageNo`, with the server modelled as a function from page
number to decode outcome.  `fuel` bounds the number of iterations the
embedding may unfold; `none` means the bound was hit (the Python loop
would still be running), `some` is a completed run. -/
def fetchTimelineFrom {α : Type} (srv : Int → DecodeOutcome α) (maxPages : Option Nat)
    (pageStart : Int) : Nat → Int → Option (FetchResult α)
  | 0, _ => none
  | fuel + 1, pageNo =>
    if pageLimitExceeded maxPages pageStart pageNo then
      some ⟨[], [], []⟩
    else
      match makeTimelineRequest (srv pageNo) with
      | none => some ⟨[], [pageNo], [none]⟩
      | some r =>
        if r.data.isEmpty then
          some ⟨[], [pageNo], [none]⟩
        else if hasNextPage r then
          let p := nextPageNo r pageNo
          match fetchTimelineFrom srv maxPages pageStart fuel p with
          | none => none
          | some res => some ⟨r.data ++ res.items, pageNo :: res.requests,
              some p :: res.cursorUpdates⟩
        else
          some ⟨r.data, [pageNo], [none]⟩

/-- `UraakajoshiAPI._fetch_timeline(base_params, max_pages, page_start)`:
the loop starts at `page_no = page_start`. -/
def fetchTimeline {α : Type} (srv : Int → DecodeOutcome α) (maxPages : Option Nat)
    (pageStart : Int) (fuel : Nat) : Option (FetchResult α) :=
  fetchTimelineFrom srv maxPages pageStart fuel pageStart

/-- `UraakajoshiAPI.hashtag_timeline`: an externally supplied cursor
(`is not None`) overrides `page_start` before delegating to
`_fetch_timeline`. -/
def hashtagTimeline {α : Type} (srv : Int → DecodeOutcome α) (maxPages : Option Nat)
    (pageStart : Int) (cursor : Option Int) (fuel : Nat) : Option (FetchResult α) :=
  fetchTimeline srv maxPages (cursor.getD pageStart) fuel

end Uraakajoshi

namespace Uraakajoshi

/-! ## Branch lemmas for one iteration of the pager loop -/

theorem fetchTimelineFrom_succ {α : Type} (srv : Int → DecodeOutcome α) (mp : Option Nat)
    (ps : Int) (fuel : Nat) (p : Int) :
    fetchTimelineFrom srv mp ps (fuel + 1) p =
      if pageLimitExceeded mp ps p then some ⟨[], [], []⟩
      else
        match makeTimelineRequest (srv p) with
        | none => some ⟨[], [p], [none]⟩
        | some r =>
          if r.data.isEmpty then some ⟨[], [p], [none]⟩
          else if hasNextPage r then
            match fetchTimelineFrom srv mp ps fuel (nextPageNo r p) with
            | none => none
            | some res => some ⟨r.data ++ res.items, p :: res.requests,
                some (nextPageNo r p) :: res.cursorUpdates⟩
          else some ⟨r.data, [p], [none]⟩ := rfl

theorem fetchTimelineFrom_limit {α : Type} {srv : Int → DecodeOutcome α} {mp : Option Nat}
    {ps p : Int} (fuel : Nat) (h : pageLimitExceeded mp ps p = true) :
    fetchTimelineFrom srv mp ps (fuel + 1) p = some ⟨[], [], []⟩ := by
  rw [fetchTimelineFrom_succ, if_pos h]

theorem fetchTimelineFrom_decodeFailed {α : Type} {srv : Int → DecodeOutcome α}
    {mp : Option Nat} {ps p : Int} (fuel : Nat)
    (hl : pageLimitExceeded mp ps p = false) (h : srv p = .failed) :
    fetchTimelineFrom srv mp ps (fuel + 1) p = some ⟨[], [p], [none]⟩ := by
  rw [fetchTimelineFrom_succ, if_neg (by simp [hl]), h]
  rfl

theorem fetchTimelineFrom_emptyData {α : Type} {srv : Int → DecodeOutcome α}
    {mp : Option Nat} {ps p : Int} {r : TimelineResponse α} (fuel : Nat)
    (hl : pageLimitExceeded mp ps p = false) (hr : srv p = .ok r) (hd : r.data = []) :
    fetchTimelineFrom srv mp ps (fuel + 1) p = some ⟨[], [p], [none]⟩ := by
  rw [fetchTimelineFrom_succ, if_neg (by simp [hl]), hr]
  simp [makeTimelineRequest, hd]

theorem fetchTimelineFrom_lastPage {α : Type} {srv : Int → DecodeOutcome α}
    {mp : Option Nat} {ps p : Int} {r : TimelineResponse α} (fuel : Nat)
    (hl : pageLimitExceeded mp ps p = false) (hr : srv p = .ok r) (hd : r.data ≠ [])
    (hn : hasNextPage r = false) :
    fetchTimelineFrom srv mp ps (fuel + 1) p = some ⟨r.data, [p], [none]⟩ := by
  rw [fetchTimelineFrom_succ, if_neg (by simp [hl]), hr]
  simp [makeTimelineRequest, hd, hn]

theorem fetchTimelineFrom_advance {α : Type} {srv : Int → DecodeOutcome α}
    {mp : Option Nat} {ps p : Int} {r : TimelineResponse α} (fuel : Nat)
    (hl : pageLimitExceeded mp ps p = false) (hr : srv p = .ok r) (hd : r.data ≠ [])
    (hn : hasNextPage r = true) :
    fetchTimelineFrom srv mp ps (fuel + 1) p =
      (fetchTimelineFrom srv mp ps fuel (nextPageNo r p)).map
        (fun res => ⟨r.data ++ res.items, p :: res.requests,
          some (nextPageNo r p) :: res.cursorUpdates⟩) := by
  rw [fetchTimelineFrom_succ, if_neg (by simp [hl]), hr]
  show (if r.data.isEmpty then _ else _) = _
  rw [if_neg (by simp [hd]), if_pos hn]
  cases hrec : fetchTimelineFrom srv mp ps fuel (nextPageNo r p) <;> rfl

/-- With a reported `current`, the pager's next-page test fails exactly
when `next` is absent/null, `0` (Python falsiness), or `≤ current`. -/
theorem hasNextPage_eq_false_iff {α : Type} {r : TimelineResponse α} {c : Int}
    (hc : r.current = some c) :
    hasNextPage r = false ↔
      (r.next = none ∨ r.next = some 0 ∨ ∃ n, r.next = some n ∧ n ≤ c) := by
  unfold hasNextPage
  cases hn : r.next with
  | none => simp
  | some n =>
    by_cases h0 : n = 0
    · subst h0; simp
    · simp only [if_neg h0, hc, Option.getD_some, decide_eq_false_iff_not, not_lt,
        Option.some.injEq]
      constructor
      · intro h; exact Or.inr (Or.inr ⟨n, rfl, h⟩)
      · rintro (h | h | ⟨m, hm, hle⟩)
        · exact absurd h (by simp)
        · exact absurd h (by simp [h0])
        · cases hm; exact hle

/-- Increasing the fuel bound never changes a completed run. -/
theorem fetchTimelineFrom_fuel_mono {α : Type} (srv : Int → DecodeOutcome α)
    (mp : Option Nat) (ps : Int) :
    ∀ fuel fuel' p res, fuel ≤ fuel' →
      fetchTimelineFrom srv mp ps fuel p = some res →
      fetchTimelineFrom srv mp ps fuel' p = some res := by
  intro fuel
  induction fuel with
  | zero => intro fuel' p res _ h; simp [fetchTimelineFrom] at h
  | succ f ih =>
    intro fuel' p res hle h
    obtain ⟨f', rfl⟩ : ∃ f', fuel' = f' + 1 := ⟨fuel' - 1, by omega⟩
    by_cases hlim : pageLimitExceeded mp ps p = true
    · rw [fetchTimelineFrom_limit f hlim] at h
      rw [fetchTimelineFrom_limit f' hlim]
      exact h
    · replace hlim : pageLimitExceeded mp ps p = false := by
        cases hb : pageLimitExceeded mp ps p
        · rfl
        · exact absurd hb hlim
      cases hsrv : srv p with
      | failed =>
        rw [fetchTimelineFrom_decodeFailed f hlim hsrv] at h
        rw [fetchTimelineFrom_decodeFailed f' hlim hsrv]
        exact h
      | ok r =>
        by_cases hdata : r.data = []
        · rw [fetchTimelineFrom_emptyData f hlim hsrv hdata] at h
          rw [fetchTimelineFrom_emptyData f' hlim hsrv hdata]
          exact h
        · by_cases hnx : hasNextPage r
          · rw [fetchTimelineFrom_advance f hlim hsrv hdata hnx] at h
            rw [fetchTimelineFrom_advance f' hlim hsrv hdata hnx]
            cases hrec : fetchTimelineFrom srv mp ps f (nextPageNo r p) with
            | none => rw [hrec] at h; exact absurd h (by simp)
            | some res0 =>
              rw [hrec] at h
              rw [ih f' (nextPageNo r p) res0 (by omega) hrec]
              exact h
          · replace hnx : hasNextPage r = false := by
              cases hb : hasNextPage r
              · rfl
              · exact absurd hb hnx
            rw [fetchTimelineFrom_lastPage f hlim hsrv hdata hnx] at h
            rw [fetchTimelineFrom_lastPage f' hlim hsrv hdata hnx]
            exact h

theorem pageLimitExceeded_none (ps p : Int) : pageLimitExceeded none ps p = false := rfl

/-- With no page limit, the run is independent of the `page_start`
argument (which only feeds the limit check). -/
theorem fetchTimelineFrom_none_pageStart {α : Type} (srv : Int → DecodeOutcome α)
    (ps ps' : Int) :
    ∀ fuel p, fetchTimelineFrom srv none ps fuel p = fetchTimelineFrom srv none ps' fuel p := by
  intro fuel
  induction fuel with
  | zero => intro p; rfl
  | succ f ih =>
    intro p
    cases hsrv : srv p with
    | failed =>
      rw [fetchTimelineFrom_decodeFailed f (pageLimitExceeded_none ps p) hsrv,
        fetchTimelineFrom_decodeFailed f (pageLimitExceeded_none ps' p) hsrv]
    | ok r =>
      by_cases hdata : r.data = []
      · rw [fetchTimelineFrom_emptyData f (pageLimitExceeded_none ps p) hsrv hdata,
          fetchTimelineFrom_emptyData f (pageLimitExceeded_none ps' p) hsrv hdata]
      · by_cases hnx : hasNextPage r
        · rw [fetchTimelineFrom_advance f (pageLimitExceeded_none ps p) hsrv hdata hnx,
            fetchTimelineFrom_advance f (pageLimitExceeded_none ps' p) hsrv hdata hnx, ih]
        · replace hnx : hasNextPage r = false := by
            cases hb : hasNextPage r
            · rfl
            · exact absurd hb hnx
          rw [fetchTimelineFrom_lastPage f (pageLimitExceeded_none ps p) hsrv hdata hnx,
            fetchTimelineFrom_lastPage f (pageLimitExceeded_none ps' p) hsrv hdata hnx]

theorem fetchTimelineFrom_zero {α : Type} (srv : Int → DecodeOutcome α) (mp : Option Nat)
    (ps p : Int) : fetchTimelineFrom srv mp ps 0 p = none := rfl

/-- Invariant of a completed pager run (no page limit): as many cursor
updates as requests; every cursor update is a page number except a
possible final `none`; and resuming from any reported cursor page with
the same fuel reproduces a suffix of the items. -/
theorem resume_aux {α : Type} (srv : Int → DecodeOutcome α) (ps : Int) :
    ∀ fuel p res, fetchTimelineFrom srv none ps fuel p = some res →
      res.requests.length = res.cursorUpdates.length
      ∧ (∃ pre : List Int, res.cursorUpdates = pre.map some
          ∨ res.cursorUpdates = pre.map some ++ [none])
      ∧ (∀ c : Int, some c ∈ res.cursorUpdates →
          ∃ pre res', fetchTimelineFrom srv none ps fuel c = some res'
            ∧ res.items = pre ++ res'.items) := by
  intro fuel
  induction fuel with
  | zero =>
    intro p res h
    rw [fetchTimelineFrom_zero] at h
    exact Option.noConfusion h
  | succ f ih =>
    intro p res h
    cases hsrv : srv p with
    | failed =>
      rw [fetchTimelineFrom_decodeFailed f (pageLimitExceeded_none ps p) hsrv] at h
      obtain rfl : res = ⟨[], [p], [none]⟩ := (Option.some.inj h).symm
      refine ⟨rfl, ⟨[], Or.inr rfl⟩, ?_⟩
      intro c hc
      simp at hc
    | ok r =>
      by_cases hdata : r.data = []
      · rw [fetchTimelineFrom_emptyData f (pageLimitExceeded_none ps p) hsrv hdata] at h
        obtain rfl : res = ⟨[], [p], [none]⟩ := (Option.some.inj h).symm
        refine ⟨rfl, ⟨[], Or.inr rfl⟩, ?_⟩
        intro c hc
        simp at hc
      · by_cases hnx : hasNextPage r
        · rw [fetchTimelineFrom_advance f (pageLimitExceeded_none ps p) hsrv hdata hnx] at h
          cases hrec : fetchTimelineFrom srv none ps f (nextPageNo r p) with
          | none => rw [hrec] at h; exact Option.noConfusion h
          | some res0 =>
            rw [hrec] at h
            obtain rfl : res = ⟨r.data ++ res0.items, p :: res0.requests,
                some (nextPageNo r p) :: res0.cursorUpdates⟩ := (Option.some.inj h).symm
            obtain ⟨ihlen, ⟨pre0, ihshape⟩, ihresume⟩ := ih (nextPageNo r p) res0 hrec
            refine ⟨by simpa using ihlen, ⟨nextPageNo r p :: pre0, ?_⟩, ?_⟩
            · rcases ihshape with hsh | hsh
              · exact Or.inl (by simp [hsh])
              · exact Or.inr (by simp [hsh])
            · intro c hc
              rcases List.mem_cons.mp hc with heq | htail
              · obtain rfl : c = nextPageNo r p := Option.some.inj heq
                exact ⟨r.data, res0,
                  fetchTimelineFrom_fuel_mono srv none ps f (f + 1) (nextPageNo r p) res0
                    (by omega) hrec, rfl⟩
              · obtain ⟨pre', res', hres', hitems⟩ := ihresume c htail
                exact ⟨r.data ++ pre', res',
                  fetchTimelineFrom_fuel_mono srv none ps f (f + 1) c res' (by omega) hres',
                  by simp [hitems]⟩
        · replace hnx : hasNextPage r = false := by
            cases hb : hasNextPage r
            · rfl
            · exact absurd hb hnx
          rw [fetchTimelineFrom_lastPage f (pageLimitExceeded_none ps p) hsrv hdata hnx] at h
          obtain rfl : res = ⟨r.data, [p], [none]⟩ := (Option.some.inj h).symm
          refine ⟨rfl, ⟨[], Or.inr rfl⟩, ?_⟩
          intro c hc
          simp at hc

/-! ## Concrete servers used by the witnesses and counterexamples -/

/-- A two-page history: page 1 yields record `10` and points at page 3,
page 3 yields record `30` and is the last page. -/
def demoServer : Int → DecodeOutcome Nat := fun p =>
  if p = 1 then .ok ⟨[10], some 1, some 3⟩
  else if p = 3 then .ok ⟨[30], some 3, none⟩
  else .failed

/-- A server whose page-1 response reports `current = -1` and
`next = 0`, so `next > current` yet `next` is falsy in Python. -/
def zeroNextServer : Int → DecodeOutcome Nat := fun p =>
  if p = 1 then .ok ⟨[7], some (-1), some 0⟩ else .failed

/-! ## C1: page buckets -/

/-- **C1.** For every page number `p ≥ 0`, the `page_name` request
parameter equals `(p // 1000) * 1000 + 999` zero-padded to six digits,
and in particular `bucket(1) = 999`, `bucket(999) = 999`,
`bucket(1000) = 1999`, `bucket(2500) = 2999` (formatted `000999`,
`000999`, `001999`, `002999`). -/
theorem pageName_eq_bucket_zero_padded (p : Int) (t : String) (hp : 0 ≤ p) :
    (buildRequestParams p t).page_name
        = zeroPad 6 (toString (pageBucket p).toNat)
      ∧ pageBucket p = (Int.fdiv p 1000) * 1000 + 999
      ∧ calculatePageName 1 = "000999"
      ∧ calculatePageName 999 = "000999"
      ∧ calculatePageName 1000 = "001999"
      ∧ calculatePageName 2500 = "002999" := by
  refine ⟨?_, rfl, by decide, by decide, by decide, by decide⟩
  have hb : 0 ≤ pageBucket p := by
    have h1 : 0 ≤ Int.fdiv p 1000 := Int.fdiv_nonneg hp (by decide)
    have h2 : 0 ≤ Int.fdiv p 1000 * 1000 := by positivity
    unfold pageBucket; omega
  simp only [buildRequestParams, calculatePageName, intFormat06, if_neg (by omega : ¬ pageBucket p < 0)]

/-- Witness for C1 at `p = 2500`. -/
theorem pageName_eq_bucket_zero_padded_witness :
    (0 : Int) ≤ 2500
      ∧ (buildRequestParams 2500 "202310120000").page_name
          = zeroPad 6 (toString (pageBucket 2500).toNat) :=
  ⟨by decide, (pageName_eq_bucket_zero_padded 2500 "202310120000" (by decide)).1⟩

/-! ## C2: stop conditions and direct jumps of the pager -/

/-- **C2 counterexample.** The page-1 response reports `current = -1`
and `next = 0`, so `next > current`; the claim says the pager advances
directly to page `next = 0`, but the run requests only page 1 and stops
with a `None` cursor: in `next_page and next_page > current_page` a
`next` of `0` is falsy, so `_has_next_page` is falsy regardless of the
comparison. -/
theorem pager_advance_counterexample :
    zeroNextServer 1 = .ok ⟨[7], some (-1), some 0⟩
    ∧ ((-1 : Int) < 0)
    ∧ hasNextPage (⟨[7], some (-1), some 0⟩ : TimelineResponse Nat) = false
    ∧ fetchTimeline zeroNextServer none 1 5 = some ⟨[7], [1], [none]⟩ := by
  refine ⟨rfl, by decide, by decide, by decide⟩

/-- **C2 (amended).** For a successfully decoded response with a
non-empty data list (the case in which the pager evaluates the next
page at all, per the stop-priority order) reporting `current = c`:
if `next` is absent/null, equal to `0` (falsy in Python), or `≤ c`,
pagination stops right after this page — the run completes with one
more fuel step, independently of any further fuel, i.e. in finitely
many steps; if `next = n` with `n ≠ 0` and `n > c`, the pager advances
directly to page `n` (which need not be the current request page plus
one). -/
theorem pager_stops_or_jumps {α : Type} (srv : Int → DecodeOutcome α) (mp : Option Nat)
    (ps p : Int) (r : TimelineResponse α) (c : Int)
    (hr : srv p = .ok r) (hc : r.current = some c) (hd : r.data ≠ [])
    (hl : pageLimitExceeded mp ps p = false) :
    ((r.next = none ∨ r.next = some 0 ∨ ∃ n, r.next = some n ∧ n ≤ c) →
      ∀ fuel : Nat, fetchTimelineFrom srv mp ps (fuel + 1) p = some ⟨r.data, [p], [none]⟩)
    ∧ (∀ n : Int, r.next = some n → n ≠ 0 → c < n →
      ∀ fuel : Nat, fetchTimelineFrom srv mp ps (fuel + 1) p =
        (fetchTimelineFrom srv mp ps fuel n).map
          (fun res => ⟨r.data ++ res.items, p :: res.requests, some n :: res.cursorUpdates⟩)) := by
  constructor
  · intro hstop fuel
    exact fetchTimelineFrom_lastPage fuel hl hr hd ((hasNextPage_eq_false_iff hc).mpr hstop)
  · intro n hn h0 hcn fuel
    have hnx : hasNextPage r = true := by
      simp [hasNextPage, hn, h0, hc, hcn]
    have hnp : nextPageNo r p = n := by simp [nextPageNo, hn]
    rw [fetchTimelineFrom_advance fuel hl hr hd hnx, hnp]

/-- Witness for C2 (amended): on `demoServer`, the page-1 response
jumps directly to page 3, and the page-3 response (no `next`) stops. -/
theorem pager_stops_or_jumps_witness :
    fetchTimelineFrom demoServer none 1 2 1 =
      (fetchTimelineFrom demoServer none 1 1 3).map
        (fun res => ⟨[10] ++ res.items, 1 :: res.requests, some 3 :: res.cursorUpdates⟩)
    ∧ fetchTimelineFrom demoServer none 1 1 3 = some ⟨[30], [3], [none]⟩ := by
  constructor
  · exact (pager_stops_or_jumps demoServer none 1 1 ⟨[10], some 1, some 3⟩ 1
      rfl rfl (by decide) rfl).2 3 rfl (by decide) (by decide) 1
  · exact (pager_stops_or_jumps demoServer none 1 3 ⟨[30], some 3, none⟩ 3
      rfl rfl (by decide) rfl).1 (Or.inl rfl) 0

/-! ## C3: stop-condition priority and non-fatal decode failures -/

/-- **C3.** One iteration of the pager applies its stop conditions in
priority order: (1) if the page-count limit is reached the loop breaks
before any fetch (no request, no cursor update, whatever the server
would have answered); otherwise the page is requested and (2) a JSON
decode failure — caught inside `_make_timeline_request`, which returns
`None` instead of raising — stops cleanly with a `None` cursor update,
exactly like (3) an empty or missing data list; (4) otherwise all
records of the page are yielded, in order, before the next-page check
runs, and only then does the pager either stop (no valid next page) or
continue with the next page prepended to the remaining run. -/
theorem pager_stop_priority {α : Type} (srv : Int → DecodeOutcome α) (mp : Option Nat)
    (ps p : Int) (fuel : Nat) :
    (pageLimitExceeded mp ps p = true →
      fetchTimelineFrom srv mp ps (fuel + 1) p = some ⟨[], [], []⟩)
    ∧ (pageLimitExceeded mp ps p = false → srv p = .failed →
      fetchTimelineFrom srv mp ps (fuel + 1) p = some ⟨[], [p], [none]⟩)
    ∧ (∀ r : TimelineResponse α, pageLimitExceeded mp ps p = false → srv p = .ok r →
      r.data = [] →
      fetchTimelineFrom srv mp ps (fuel + 1) p = some ⟨[], [p], [none]⟩)
    ∧ (∀ r : TimelineResponse α, pageLimitExceeded mp ps p = false → srv p = .ok r →
      r.data ≠ [] → hasNextPage r = false →
      fetchTimelineFrom srv mp ps (fuel + 1) p = some ⟨r.data, [p], [none]⟩)
    ∧ (∀ r : TimelineResponse α, pageLimitExceeded mp ps p = false → srv p = .ok r →
      r.data ≠ [] → hasNextPage r = true →
      fetchTimelineFrom srv mp ps (fuel + 1) p =
        (fetchTimelineFrom srv mp ps fuel (nextPageNo r p)).map
          (fun res => ⟨r.data ++ res.items, p :: res.requests,
            some (nextPageNo r p) :: res.cursorUpdates⟩)) :=
  ⟨fun h => fetchTimelineFrom_limit fuel h,
   fun hl h => fetchTimelineFrom_decodeFailed fuel hl h,
   fun _ hl hr hd => fetchTimelineFrom_emptyData fuel hl hr hd,
   fun _ hl hr hd hn => fetchTimelineFrom_lastPage fuel hl hr hd hn,
   fun _ hl hr hd hn => fetchTimelineFrom_advance fuel hl hr hd hn⟩

/-- Witness for C3: with `max_pages = 1` and `page_start = 1`, page 2
exceeds the limit and the loop breaks without a request; and a decode
failure at page 1 stops cleanly with a `None` cursor update. -/
theorem pager_stop_priority_witness :
    pageLimitExceeded (some 1) 1 2 = true
    ∧ fetchTimelineFrom (fun _ => DecodeOutcome.failed : Int → DecodeOutcome Nat)
        (some 1) 1 1 2 = some ⟨[], [], []⟩
    ∧ fetchTimelineFrom (fun _ => DecodeOutcome.failed : Int → DecodeOutcome Nat)
        none 1 1 1 = some ⟨[], [1], [none]⟩ :=
  ⟨by decide,
   (pager_stop_priority (fun _ => DecodeOutcome.failed) (some 1) 1 2 0).1 (by decide),
   (pager_stop_priority (fun _ => DecodeOutcome.failed) none 1 1 0).2.1 rfl rfl⟩

/-! ## C4: cursor reporting and resumption -/

/-- **C4.** For a completed unlimited run: the pager issues exactly one
cursor update per page fetch; every update is the next page number to
use on resume, except a possible final `None` on natural termination;
and restarting the crawl through `hashtag_timeline` with the cursor
reported by a prior run (which overrides `page_start`) yields exactly a
suffix of the uninterrupted run's records — the records before the
cursor page form the dropped prefix and are not re-emitted. -/
theorem cursor_resume_suffix {α : Type} (srv : Int → DecodeOutcome α) (ps : Int)
    (fuel : Nat) (res : FetchResult α)
    (h : fetchTimeline srv none ps fuel = some res) :
    res.requests.length = res.cursorUpdates.length
    ∧ (∃ pre : List Int, res.cursorUpdates = pre.map some
        ∨ res.cursorUpdates = pre.map some ++ [none])
    ∧ (∀ c : Int, some c ∈ res.cursorUpdates →
        ∃ pre res', hashtagTimeline srv none ps (some c) fuel = some res'
          ∧ res.items = pre ++ res'.items) := by
  obtain ⟨h1, h2, h3⟩ := resume_aux srv ps fuel ps res h
  refine ⟨h1, h2, ?_⟩
  intro c hc
  obtain ⟨pre, res', hres', hi⟩ := h3 c hc
  refine ⟨pre, res', ?_, hi⟩
  show fetchTimelineFrom srv none c fuel c = some res'
  rw [fetchTimelineFrom_none_pageStart srv c ps fuel c]
  exact hres'

/-- Witness for C4 on the two-page `demoServer` run. -/
theorem cursor_resume_suffix_witness :
    fetchTimeline demoServer none 1 2 = some ⟨[10, 30], [1, 3], [some 3, none]⟩
    ∧ ([1, 3] : List Int).length = ([some 3, none] : List (Option Int)).length := by
  have hrun : fetchTimeline demoServer none 1 2 = some ⟨[10, 30], [1, 3], [some 3, none]⟩ := by
    decide
  exact ⟨hrun, (cursor_resume_suffix demoServer 1 2 ⟨[10, 30], [1, 3], [some 3, none]⟩ hrun).1⟩

/-! ## Filename splitting (`filename.split(".")`) -/

/-- Python `str.split(".")` on the character list of a filename: the
(always nonempty) list of `.`-separated groups, empty groups kept. -/
def splitOnDot : List Char → List (List Char)
  | [] => [[]]
  | c :: cs =>
    if c = '.' then [] :: splitOnDot cs
    else
      match splitOnDot cs with
      | [] => [[c]]
      | g :: gs => (c :: g) :: gs

/-- Python `split(".")[-1]`. -/
def lastSplitPart (l : List Char) : List Char :=
  (splitOnDot l).getLast?.getD []

/-- `UraakajoshiExtractor._get_file_extension`:
`filename.split(".")[-1] if "." in filename else ""`. -/
def get_file_extension (filename : String) : String :=
  if '.' ∈ filename.data then String.mk (lastSplitPart filename.data) else ""

/-- The inline extension computation of
`UraakajoshiExtractor._create_profile_media_metadata`:
`filename.split(".")[-1].lower() if "." in filename else "jpg"`
(`Char.toLower` models `str.lower`; they agree on ASCII filenames). -/
def profileExtension (filename : String) : String :=
  if '.' ∈ filename.data then String.mk ((lastSplitPart filename.data).map Char.toLower)
  else "jpg"

/-- `filename.rsplit(".", 1)[0] if "." in filename else filename`:
everything before the final dot. -/
def profileBasename (filename : String) : String :=
  if '.' ∈ filename.data then
    String.mk (((filename.data.reverse.dropWhile (fun c => c != '.')).drop 1).reverse)
  else filename

theorem splitOnDot_ne_nil : ∀ l : List Char, splitOnDot l ≠ [] := by
  intro l
  cases l with
  | nil => simp [splitOnDot]
  | cons c cs =>
    by_cases hc : c = '.'
    · simp [splitOnDot, hc]
    · cases hg : splitOnDot cs with
      | nil => simp [splitOnDot, hc, hg]
      | cons g gs => simp [splitOnDot, hc, hg]

theorem splitOnDot_no_dot : ∀ l : List Char, '.' ∉ l → splitOnDot l = [l] := by
  intro l
  induction l with
  | nil => intro _; rfl
  | cons c cs ih =>
    intro h
    have hc : c ≠ '.' := fun hcc => h (hcc ▸ List.mem_cons_self c cs)
    have hcs : '.' ∉ cs := fun hm => h (List.mem_cons_of_mem c hm)
    simp [splitOnDot, hc, ih hcs]

theorem splitOnDot_two_le_of_dot_mem :
    ∀ l : List Char, '.' ∈ l → 2 ≤ (splitOnDot l).length := by
  intro l
  induction l with
  | nil => intro h; simp at h
  | cons c cs ih =>
    intro h
    by_cases hc : c = '.'
    · have := splitOnDot_ne_nil cs
      have : 1 ≤ (splitOnDot cs).length := List.length_pos.mpr this
      simp only [splitOnDot, if_pos hc, List.length_cons]
      omega
    · have hcs : '.' ∈ cs := by
        rcases List.mem_cons.mp h with h1 | h1
        · exact absurd h1.symm hc
        · exact h1
      cases hg : splitOnDot cs with
      | nil => exact absurd hg (splitOnDot_ne_nil cs)
      | cons g gs =>
        have := ih hcs
        rw [hg] at this
        simp only [splitOnDot, if_neg hc, hg, List.length_cons] at this ⊢
        omega

/-- The last `split(".")` group of a dotted string is a dot-free suffix
preceded by a dot — i.e. exactly the substring after the final dot. -/
theorem splitOnDot_getLast_spec :
    ∀ l : List Char, '.' ∈ l →
      ∃ pre ext : List Char, l = pre ++ '.' :: ext ∧ '.' ∉ ext
        ∧ (splitOnDot l).getLast? = some ext := by
  intro l
  induction l with
  | nil => intro h; simp at h
  | cons c cs ih =>
    intro h
    by_cases hcs : '.' ∈ cs
    · obtain ⟨pre, ext, heq, hnd, hlast⟩ := ih hcs
      by_cases hc : c = '.'
      · refine ⟨c :: pre, ext, by simp [heq], hnd, ?_⟩
        cases hg : splitOnDot cs with
        | nil => exact absurd hg (splitOnDot_ne_nil cs)
        | cons g gs =>
          rw [hg] at hlast
          simp only [splitOnDot, if_pos hc, hg]
          rw [List.getLast?_cons_cons]
          exact hlast
      · have h2 := splitOnDot_two_le_of_dot_mem cs hcs
        cases hg : splitOnDot cs with
        | nil => exact absurd hg (splitOnDot_ne_nil cs)
        | cons g gs =>
          rw [hg] at hlast h2
          cases gs with
          | nil => simp at h2
          | cons g2 gs2 =>
            refine ⟨c :: pre, ext, by simp [heq], hnd, ?_⟩
            simp only [splitOnDot, if_neg hc, hg]
            rw [List.getLast?_cons_cons] at hlast ⊢
            exact hlast
    · have hc : c = '.' := by
        rcases List.mem_cons.mp h with h1 | h1
        · exact h1.symm
        · exact absurd h1 hcs
      refine ⟨[], cs, by simp [hc], hcs, ?_⟩
      simp only [splitOnDot, if_pos hc, splitOnDot_no_dot cs hcs]
      rfl

/-! ## C7: extension derivation -/

/-- **C7 counterexample.** For the profile-image filename `"a.PNG"`
the substring after the final dot is `"PNG"`, but the derived profile
extension is the lowercased `"png"` — the code applies `.lower()` to
profile-image extensions, which the claim does not allow. -/
theorem profile_extension_lowercased_counterexample :
    "a.PNG".data = ['a'] ++ '.' :: "PNG".data
    ∧ '.' ∉ "PNG".data
    ∧ profileExtension "a.PNG" = "png"
    ∧ profileExtension "a.PNG" ≠ "PNG"
    ∧ get_file_extension "a.PNG" = "PNG" := by
  refine ⟨by decide, by decide, by decide, by decide, by decide⟩

/-- **C7 (amended).** For every filename containing a dot, the derived
extension is the substring after the final dot (the filename decomposes
as `pre ++ "." ++ ext` with `ext` dot-free, and the extension is `ext`
for post media, and `ext` lowercased for profile images); for a
filename with no dot the extension is `""` for post media (photo or
video) but the default `"jpg"` for profile images (avatar or
background). -/
theorem extension_after_final_dot (f : String) :
    ('.' ∈ f.data →
      ∃ pre ext : List Char, f.data = pre ++ '.' :: ext ∧ '.' ∉ ext
        ∧ get_file_extension f = String.mk ext
        ∧ profileExtension f = String.mk (ext.map Char.toLower))
    ∧ ('.' ∉ f.data → get_file_extension f = "" ∧ profileExtension f = "jpg") := by
  constructor
  · intro hd
    obtain ⟨pre, ext, heq, hnd, hlast⟩ := splitOnDot_getLast_spec f.data hd
    have hpart : lastSplitPart f.data = ext := by
      rw [lastSplitPart, hlast]
      rfl
    refine ⟨pre, ext, heq, hnd, ?_, ?_⟩
    · rw [get_file_extension, if_pos hd, hpart]
    · rw [profileExtension, if_pos hd, hpart]
  · intro hd
    exact ⟨by rw [get_file_extension, if_neg hd], by rw [profileExtension, if_neg hd]⟩

/-- Witness for C7 (amended) on the dotless filename `"archive"`. -/
theorem extension_after_final_dot_witness :
    ¬ ('.' ∈ "archive".data)
    ∧ get_file_extension "archive" = ""
    ∧ profileExtension "archive" = "jpg" :=
  ⟨by decide, ((extension_after_final_dot "archive").2 (by decide)).1,
    ((extension_after_final_dot "archive").2 (by decide)).2⟩

/-! ## Timestamp parsing (`datetime.strptime(..., "%Y-%m-%d %H:%M:%S")`) -/

/-- The six broken-down fields of a parsed creation timestamp. -/
structure ParsedDateTime where
  year : Nat
  month : Nat
  day : Nat
  hour : Nat
  minute : Nat
  second : Nat
deriving Repr, DecidableEq

def digitVal (c : Char) : Nat := c.toNat - '0'.toNat

/-- Greedily read one or two leading (ASCII) digits, as the 1–2 digit
field patterns of CPython `_strptime` do for `%m`/`%d`/`%H`/`%M`/`%S`
in this dash/space/colon-separated format. -/
def grab2 : List Char → Option (Nat × List Char)
  | [] => none
  | c :: rest =>
    if c.isDigit then
      match rest with
      | c2 :: rest2 =>
        if c2.isDigit then some (digitVal c * 10 + digitVal c2, rest2)
        else some (digitVal c, rest)
      | [] => some (digitVal c, [])
    else none

/-- Read exactly four digits (`%Y`). -/
def grab4 : List Char → Option (Nat × List Char)
  | c1 :: c2 :: c3 :: c4 :: rest =>
    if c1.isDigit && c2.isDigit && c3.isDigit && c4.isDigit then
      some (((digitVal c1 * 10 + digitVal c2) * 10 + digitVal c3) * 10 + digitVal c4, rest)
    else none
  | _ => none

/-- Match one literal separator character. -/
def expectChar (c : Char) : List Char → Option (List Char)
  | [] => none
  | x :: rest => if x = c then some rest else none

def isLeapYear (y : Nat) : Bool :=
  decide (y % 4 = 0) && (!decide (y % 100 = 0) || decide (y % 400 = 0))

def daysInMonth (y m : Nat) : Nat :=
  if m = 2 then (if isLeapYear y then 29 else 28)
  else if m = 4 || m = 6 || m = 9 || m = 11 then 30
  else 31

/-- `datetime.datetime.strptime(s, "%Y-%m-%d %H:%M:%S")` as used by
`_extract_date_folders` and `parse_timestamp`: `%Y` is exactly four
digits, the other fields one or two digits within their value ranges
(month 1–12, day 1–31 and valid for the month and leap year, hour 0–23,
minute/second 0–59, year ≥ 1 = `datetime.MINYEAR`); the literal
separators must match and no unconverted input may remain, otherwise a
`ValueError` is raised — modelled as `none`. -/
def strptimeFixed (s : String) : Option ParsedDateTime := do
  let (y, r1) ← grab4 s.data
  let r2 ← expectChar '-' r1
  let (mo, r3) ← grab2 r2
  let r4 ← expectChar '-' r3
  let (d, r5) ← grab2 r4
  let r6 ← expectChar ' ' r5
  let (h, r7) ← grab2 r6
  let r8 ← expectChar ':' r7
  let (mi, r9) ← grab2 r8
  let r10 ← expectChar ':' r9
  let (se, r11) ← grab2 r10
  if r11 = [] ∧ 1 ≤ y ∧ 1 ≤ mo ∧ mo ≤ 12 ∧ 1 ≤ d ∧ d ≤ daysInMonth y mo
      ∧ h ≤ 23 ∧ mi ≤ 59 ∧ se ≤ 59 then
    some ⟨y, mo, d, h, mi, se⟩
  else none

/-- Two-digit zero padding, as in strftime `%m`/`%d`/`%H`/`%M`/`%S`. -/
def pad2 (n : Nat) : String := if n < 10 then "0" ++ toString n else toString n

/-- strftime `%Y` (glibc prints the year without padding; every year
parsed from a four-digit field without leading zeros prints back as
those four digits). -/
def fmtYear (y : Nat) : String := toString y

/-- `UraakajoshiExtractor._extract_date_folders`: on success the pair
`(strftime("%Y%m"), strftime("%Y%m%d%H%M%S"))`, on a `ValueError` the
pair `("unknown", "unknown")`. -/
def extract_date_folders (created : String) : String × String :=
  match strptimeFixed created with
  | none => ("unknown", "unknown")
  | some d =>
    (fmtYear d.year ++ pad2 d.month,
     fmtYear d.year ++ pad2 d.month ++ pad2 d.day ++ pad2 d.hour ++ pad2 d.minute
       ++ pad2 d.second)

/-! ## Media URL construction -/

/-- Python `username[0]` as a one-character string (an empty handle
would raise `IndexError`; the embedding returns `""` there, and every
theorem about URLs assumes a nonempty handle). -/
def firstCharStr (s : String) : String :=
  match s.data with
  | [] => ""
  | c :: _ => String.mk [c]

/-- `UraakajoshiExtractor._build_media_url`. -/
def buildMediaUrl (username dateFolder timestampFolder filename : String) : String :=
  root ++ "/media/" ++ firstCharStr username ++ "/" ++ username ++ "/" ++ dateFolder
    ++ "/" ++ timestampFolder ++ "/" ++ filename

/-- `UraakajoshiExtractor._build_profile_media_url`. -/
def buildProfileMediaUrl (username filename : String) : String :=
  root ++ "/media/" ++ firstCharStr username ++ "/" ++ username ++ "/profile/" ++ filename

/-! ## C6: media URLs and date folders -/

/-- **C6.** The media file URL is
`<root>/media/<first-char-of-handle>/<handle>/<YYYYMM>/<YYYYMMDDHHMMSS>/<filename>`
with the two date segments derived from the post's creation timestamp
in the fixed `"%Y-%m-%d %H:%M:%S"` format; the timestamp
`"2023-07-13 06:03:38"` yields segments `"202307"` and
`"20230713060338"`, and an unparseable timestamp yields the literal
`"unknown"` for both segments instead of failing. -/
theorem media_url_structure (u created fn : String) (hu : u ≠ "") :
    (∃ (c : Char) (rest : List Char), u.data = c :: rest ∧
      buildMediaUrl u (extract_date_folders created).1 (extract_date_folders created).2 fn
        = root ++ "/media/" ++ String.mk [c] ++ "/" ++ u ++ "/"
          ++ (extract_date_folders created).1 ++ "/" ++ (extract_date_folders created).2
          ++ "/" ++ fn)
    ∧ extract_date_folders "2023-07-13 06:03:38" = ("202307", "20230713060338")
    ∧ (∀ s : String, strptimeFixed s = none →
        extract_date_folders s = ("unknown", "unknown"))
    ∧ extract_date_folders "not a timestamp" = ("unknown", "unknown") := by
  refine ⟨?_, by decide, ?_, by decide⟩
  · cases hdata : u.data with
    | nil =>
      exact absurd (by cases u with | mk l => cases hdata; rfl) hu
    | cons c rest =>
      refine ⟨c, rest, rfl, ?_⟩
      rw [buildMediaUrl, firstCharStr, hdata]
  · intro s hp
    rw [extract_date_folders, hp]

/-- Witness for C6 at the handle `"alice"` and the spec's example
timestamp. -/
theorem media_url_structure_witness :
    "alice" ≠ ""
    ∧ extract_date_folders "2023-07-13 06:03:38" = ("202307", "20230713060338") :=
  ⟨by decide,
    (media_url_structure "alice" "2023-07-13 06:03:38" "x.jpg" (by decide)).2.1⟩

/-! ## Media attachments (`UraakajoshiExtractor._create_media_metadata`) -/

/-- One entry of a record's `media` array.  `none` models an absent
key; an attachment may carry a photo filename, a video filename, both,
or neither. -/
structure MediaAttachment where
  id : String
  photo_file_name : Option String
  photo_width : Option Int
  photo_height : Option Int
  video_file_name : Option String
deriving Repr, DecidableEq

def natOfDigits (l : List Char) : Nat :=
  l.foldl (fun acc c => acc * 10 + digitVal c) 0

/-- Modelled from the spec: `text.parse_int` (gallery_dl's `text`
module, which is not part of this repository's sources) parses numeric
ids leniently — non-numeric input yields 0, and it never raises. -/
def parse_int (s : String) : Int :=
  match s.data with
  | '-' :: rest =>
    if rest ≠ [] ∧ rest.all Char.isDigit then -(natOfDigits rest : Int) else 0
  | l => if l ≠ [] ∧ l.all Char.isDigit then (natOfDigits l : Int) else 0

/-- Python truthiness of an optional string: `None` and `""` are falsy. -/
def truthyStr : Option String → Bool
  | none => false
  | some s => s != ""

/-- A file-metadata dictionary produced for one attachment: the video
shape (`_create_video_metadata`) has no width/height keys, the photo
shape (`_create_photo_metadata`) carries them. -/
inductive FileDescriptor where
  | video (url : String) (media_id : Int) (extension : String)
  | photo (url : String) (media_id : Int) (width height : Int) (extension : String)
deriving Repr, DecidableEq

/-- `UraakajoshiExtractor._create_video_metadata`.  The caller has
established that `video_file_name` is truthy, so the `media[...]`
dictionary access is rendered total with `getD ""`. -/
def createVideoMetadata (media : MediaAttachment) (username dateFolder timestampFolder : String) :
    FileDescriptor :=
  .video (buildMediaUrl username dateFolder timestampFolder (media.video_file_name.getD ""))
    (parse_int media.id)
    (get_file_extension (media.video_file_name.getD ""))

/-- `UraakajoshiExtractor._create_photo_metadata`: width and height use
`media.get("photo_width", 0)` / `media.get("photo_height", 0)`. -/
def createPhotoMetadata (media : MediaAttachment) (username dateFolder timestampFolder : String) :
    FileDescriptor :=
  .photo (buildMediaUrl username dateFolder timestampFolder (media.photo_file_name.getD ""))
    (parse_int media.id)
    (media.photo_width.getD 0)
    (media.photo_height.getD 0)
    (get_file_extension (media.photo_file_name.getD ""))

/-- `UraakajoshiExtractor._create_media_metadata`:
`if media.get("video_file_name")` … `elif media.get("photo_file_name")`. -/
def createMediaMetadata (media : MediaAttachment) (username dateFolder timestampFolder : String) :
    List FileDescriptor :=
  if truthyStr media.video_file_name then
    [createVideoMetadata media username dateFolder timestampFolder]
  else if truthyStr media.photo_file_name then
    [createPhotoMetadata media username dateFolder timestampFolder]
  else []

/-! ## C5: video dominates photo, one descriptor per attachment -/

/-- **C5 counterexample.** An attachment whose `photo_file_name` is
present but empty (`""`) has a photo filename present and no video
filename, yet the code produces no photo descriptor at all: the
`elif media.get("photo_file_name")` guard is Python truthiness, and
`""` is falsy. -/
theorem photo_present_empty_counterexample :
    (⟨"1", some "", none, none, none⟩ : MediaAttachment).photo_file_name = some ""
    ∧ (⟨"1", some "", none, none, none⟩ : MediaAttachment).video_file_name = none
    ∧ createMediaMetadata ⟨"1", some "", none, none, none⟩ "u" "d" "t" = [] :=
  ⟨rfl, rfl, by decide⟩

/-- **C5 (amended).** Per attachment: a non-empty video filename yields
exactly one video descriptor, whatever the photo fields hold (never
both kinds); otherwise a *non-empty* photo filename yields exactly one
photo descriptor whose width and height default to 0 when absent; an
attachment with neither a non-empty video filename nor a non-empty
photo filename yields nothing. -/
theorem media_video_dominates (m : MediaAttachment) (u df tf : String) :
    (∀ v : String, m.video_file_name = some v → v ≠ "" →
      createMediaMetadata m u df tf
        = [.video (buildMediaUrl u df tf v) (parse_int m.id) (get_file_extension v)])
    ∧ (truthyStr m.video_file_name = false →
      ∀ p : String, m.photo_file_name = some p → p ≠ "" →
      createMediaMetadata m u df tf
        = [.photo (buildMediaUrl u df tf p) (parse_int m.id) (m.photo_width.getD 0)
            (m.photo_height.getD 0) (get_file_extension p)])
    ∧ (truthyStr m.video_file_name = false → truthyStr m.photo_file_name = false →
      createMediaMetadata m u df tf = []) := by
  refine ⟨?_, ?_, ?_⟩
  · intro v hv hne
    have ht : truthyStr m.video_file_name = true := by simp [truthyStr, hv, hne]
    rw [createMediaMetadata, if_pos ht, createVideoMetadata, hv]
    rfl
  · intro hv p hp hne
    have ht : truthyStr m.photo_file_name = true := by simp [truthyStr, hp, hne]
    rw [createMediaMetadata, if_neg (by simp [hv]), if_pos ht, createPhotoMetadata, hp]
    rfl
  · intro hv hp
    rw [createMediaMetadata, if_neg (by simp [hv]), if_neg (by simp [hp])]

/-- Witness for C5: the spec's example attachment with both
`video_file_name="a.mp4"` and `photo_file_name="b.jpg"` resolves to
exactly one video descriptor. -/
theorem media_video_dominates_witness :
    createMediaMetadata ⟨"5", some "b.jpg", none, none, some "a.mp4"⟩ "u" "d" "t"
      = [FileDescriptor.video (buildMediaUrl "u" "d" "t" "a.mp4") 5 "mp4"] := by
  have h := (media_video_dominates ⟨"5", some "b.jpg", none, none, some "a.mp4"⟩ "u" "d" "t").1
    "a.mp4" rfl (by decide)
  rw [h]
  decide

/-! ## Profile-image history (`_extract_unique_profile_media`) -/

/-- One entry of a record's `screen_name` history array. -/
structure ScreenNameEntry where
  screen_name : String
  avatar_file_name : Option String
  banner_file_name : Option String
deriving Repr, DecidableEq

/-- The loop of `UraakajoshiExtractor._extract_unique_profile_media`
with its `seen_files` accumulator (a list models the Python set; only
membership is consulted).  `key` is the `screen_name_data.get(file_key)`
access. -/
def extractUniqueProfileMediaAux (key : ScreenNameEntry → Option String) :
    List String → List ScreenNameEntry → List (ScreenNameEntry × String)
  | _, [] => []
  | seen, e :: es =>
    match key e with
    | none => extractUniqueProfileMediaAux key seen es
    | some f =>
      if f ≠ "" ∧ f ∉ seen then
        (e, f) :: extractUniqueProfileMediaAux key (f :: seen) es
      else extractUniqueProfileMediaAux key seen es

/-- `UraakajoshiExtractor._extract_unique_profile_media`. -/
def extractUniqueProfileMedia (key : ScreenNameEntry → Option String)
    (entries : List ScreenNameEntry) : List (ScreenNameEntry × String) :=
  extractUniqueProfileMediaAux key [] entries

/-- The dictionary returned by
`UraakajoshiExtractor._create_profile_media_metadata`; `υ` is the type
of the transformed user snapshot stored under `user`. -/
structure ProfileMediaMetadata (υ : Type) where
  extension : String
  filename : String
  media_id : String
  type : String
  tweet_id : Int
  num : Nat
  screen_name : String
  user : υ
deriving Repr, DecidableEq

/-- `UraakajoshiExtractor._create_profile_media_metadata`. -/
def createProfileMediaMetadata {υ : Type} (username filename mediaType : String)
    (fileNumber : Nat) (userData : υ) : ProfileMediaMetadata υ :=
  { extension := profileExtension filename
    filename := profileBasename filename
    media_id := mediaType ++ "_" ++ username
    type := mediaType
    tweet_id := 0
    num := fileNumber
    screen_name := username
    user := userData }

/-- Invariant of the dedup loop, generalized over the `seen` set:
output filenames are distinct and unseen, each output pair is the first
entry of the remaining input carrying its filename, the entries keep
input order (sublist), and every truthy unseen filename shows up. -/
theorem extractUnique_aux_spec (key : ScreenNameEntry → Option String) :
    ∀ (es : List ScreenNameEntry) (seen : List String),
      ((extractUniqueProfileMediaAux key seen es).map Prod.snd).Nodup
      ∧ (∀ f ∈ (extractUniqueProfileMediaAux key seen es).map Prod.snd, f ∉ seen)
      ∧ (∀ pr ∈ extractUniqueProfileMediaAux key seen es,
          key pr.1 = some pr.2 ∧ pr.2 ≠ ""
          ∧ es.find? (fun e => key e == some pr.2) = some pr.1)
      ∧ ((extractUniqueProfileMediaAux key seen es).map Prod.fst).Sublist es
      ∧ (∀ e ∈ es, ∀ f, key e = some f → f ≠ "" → f ∉ seen →
          f ∈ (extractUniqueProfileMediaAux key seen es).map Prod.snd) := by
  intro es
  induction es with
  | nil =>
    intro seen
    refine ⟨by simp [extractUniqueProfileMediaAux], ?_, ?_, ?_, ?_⟩
    · intro f hf; simp [extractUniqueProfileMediaAux] at hf
    · intro pr hpr; simp [extractUniqueProfileMediaAux] at hpr
    · simp [extractUniqueProfileMediaAux]
    · intro e he; simp at he
  | cons e es ih =>
    intro seen
    cases hk : key e with
    | none =>
      have hred : extractUniqueProfileMediaAux key seen (e :: es)
          = extractUniqueProfileMediaAux key seen es := by
        simp [extractUniqueProfileMediaAux, hk]
      obtain ⟨ih1, ih2, ih3, ih4, ih5⟩ := ih seen
      rw [hred]
      refine ⟨ih1, ih2, ?_, ih4.trans (List.sublist_cons_self e es), ?_⟩
      · intro pr hpr
        obtain ⟨hkey, hne, hfind⟩ := ih3 pr hpr
        refine ⟨hkey, hne, ?_⟩
        rw [List.find?_cons_of_neg, hfind]
        simp [hk]
      · intro e' he' f hkey hne hns
        rcases List.mem_cons.mp he' with rfl | hmem
        · rw [hk] at hkey; exact Option.noConfusion hkey
        · exact ih5 e' hmem f hkey hne hns
    | some f0 =>
      by_cases hcond : f0 ≠ "" ∧ f0 ∉ seen
      · have hred : extractUniqueProfileMediaAux key seen (e :: es)
            = (e, f0) :: extractUniqueProfileMediaAux key (f0 :: seen) es := by
          simp only [extractUniqueProfileMediaAux, hk, if_pos hcond]
        obtain ⟨ih1, ih2, ih3, ih4, ih5⟩ := ih (f0 :: seen)
        rw [hred]
        refine ⟨?_, ?_, ?_, ?_, ?_⟩
        · refine List.nodup_cons.mpr ⟨?_, ih1⟩
          intro hmem
          exact (ih2 f0 hmem) (List.mem_cons_self f0 seen)
        · intro f hf
          rcases List.mem_cons.mp hf with rfl | hmem
          · exact hcond.2
          · exact fun hs => (ih2 f hmem) (List.mem_cons_of_mem f0 hs)
        · intro pr hpr
          rcases List.mem_cons.mp hpr with rfl | hmem
          · refine ⟨hk, hcond.1, ?_⟩
            rw [List.find?_cons_of_pos]
            simp [hk]
          · obtain ⟨hkey, hne, hfind⟩ := ih3 pr hmem
            have hprs : pr.2 ∉ f0 :: seen :=
              ih2 pr.2 (List.mem_map_of_mem Prod.snd hmem)
            have hne0 : pr.2 ≠ f0 := fun hh => hprs (hh ▸ List.mem_cons_self f0 seen)
            refine ⟨hkey, hne, ?_⟩
            rw [List.find?_cons_of_neg, hfind]
            simp [hk]
            exact fun hh => hne0 hh.symm
        · exact List.Sublist.cons₂ e ih4
        · intro e' he' f hkey hne hns
          rcases List.mem_cons.mp he' with rfl | hmem
          · rw [hk] at hkey
            obtain rfl : f0 = f := Option.some.inj hkey
            exact List.mem_cons_self f0 _
          · by_cases hf0 : f = f0
            · exact hf0 ▸ List.mem_cons_self f0 _
            · exact List.mem_cons_of_mem f0
                (ih5 e' hmem f hkey hne (by simp [List.mem_cons, hf0, hns]))
      · have hred : extractUniqueProfileMediaAux key seen (e :: es)
            = extractUniqueProfileMediaAux key seen es := by
          simp only [extractUniqueProfileMediaAux, hk, if_neg hcond]
        obtain ⟨ih1, ih2, ih3, ih4, ih5⟩ := ih seen
        rw [hred]
        refine ⟨ih1, ih2, ?_, ih4.trans (List.sublist_cons_self e es), ?_⟩
        · intro pr hpr
          obtain ⟨hkey, hne, hfind⟩ := ih3 pr hpr
          have hprs : pr.2 ∉ seen := ih2 pr.2 (List.mem_map_of_mem Prod.snd hpr)
          have hne0 : pr.2 ≠ f0 := by
            intro hh
            rcases not_and_or.mp hcond with hcc | hcc
            · exact hne (hh.trans (not_not.mp (fun hnn => hcc hnn)))
            · exact hprs (hh ▸ not_not.mp hcc)
          refine ⟨hkey, hne, ?_⟩
          rw [List.find?_cons_of_neg, hfind]
          simp [hk]
          exact fun hh => hne0 hh.symm
        · intro e' he' f hkey hne hns
          rcases List.mem_cons.mp he' with rfl | hmem
          · rw [hk] at hkey
            obtain rfl : f0 = f := Option.some.inj hkey
            exact absurd ⟨hne, hns⟩ hcond
          · exact ih5 e' hmem f hkey hne hns

/-! ## C8: dedup by filename, first occurrence wins -/

/-- **C8.** Profile-image history entries are de-duplicated by filename
in first-seen order: the emitted filenames are pairwise distinct, each
emitted pair is the *first* entry of the history list carrying that
filename (so of two entries sharing a filename the first occurrence's
handle is kept), input order is preserved, every truthy filename is
represented, and every emitted avatar/background file carries
`tweet_id = 0` and `media_id = "avatar_<handle>"` /
`"background_<handle>"`. -/
theorem profile_media_dedup {υ : Type} (ud : υ) (key : ScreenNameEntry → Option String)
    (entries : List ScreenNameEntry) :
    ((extractUniqueProfileMedia key entries).map Prod.snd).Nodup
    ∧ (∀ pr ∈ extractUniqueProfileMedia key entries,
        key pr.1 = some pr.2 ∧ pr.2 ≠ ""
        ∧ entries.find? (fun e => key e == some pr.2) = some pr.1)
    ∧ ((extractUniqueProfileMedia key entries).map Prod.fst).Sublist entries
    ∧ (∀ e ∈ entries, ∀ f, key e = some f → f ≠ "" →
        f ∈ (extractUniqueProfileMedia key entries).map Prod.snd)
    ∧ (∀ (u fn : String) (nm : Nat),
        (createProfileMediaMetadata u fn "avatar" nm ud).tweet_id = 0
        ∧ (createProfileMediaMetadata u fn "avatar" nm ud).media_id = "avatar_" ++ u
        ∧ (createProfileMediaMetadata u fn "background" nm ud).tweet_id = 0
        ∧ (createProfileMediaMetadata u fn "background" nm ud).media_id = "background_" ++ u)
    ∧ extractUniqueProfileMedia (fun e => e.avatar_file_name)
        [⟨"h1", some "a.jpg", none⟩, ⟨"h2", some "a.jpg", none⟩]
        = [(⟨"h1", some "a.jpg", none⟩, "a.jpg")] := by
  obtain ⟨h1, h2, h3, h4, h5⟩ := extractUnique_aux_spec key entries []
  exact ⟨h1, h3, h4, fun e he f hk hne => h5 e he f hk hne (by simp),
    fun u fn nm => ⟨rfl, rfl, rfl, rfl⟩, by decide⟩

/-- Witness for C8: concrete avatar metadata carries `tweet_id = 0`
and `media_id = "avatar_h1"`. -/
theorem profile_media_dedup_witness :
    (createProfileMediaMetadata "h1" "a.jpg" "avatar" 1 ()).tweet_id = 0
    ∧ (createProfileMediaMetadata "h1" "a.jpg" "avatar" 1 ()).media_id = "avatar_h1" := by
  have h := (profile_media_dedup () (fun e => e.avatar_file_name) []).2.2.2.2.1 "h1" "a.jpg" 1
  refine ⟨h.1, ?_⟩
  rw [h.2.1]
  rfl

/-! ## Hashtag fan-out (`UraakajoshiTagExtractor.items`) -/

/-- The `user` object of a raw record, reduced to the only field the
hashtag view reads. -/
structure TagUser where
  screen_name : Option String
deriving Repr, DecidableEq

/-- A raw timeline record as seen by the hashtag view:
`tweet_data.get("user", {})` may be absent. -/
structure TagRecord where
  user : Option TagUser
deriving Repr, DecidableEq

/-- `tweet_data.get("user", {}).get("screen_name")`: an absent `user`
behaves as an empty dict whose `get` yields `None`. -/
def tagUsername (r : TagRecord) : Option String :=
  match r.user with
  | none => none
  | some u => u.screen_name

/-- The three `Message` kinds an extractor's `items()` may yield
(`Message.Directory`, `Message.Url`, `Message.Queue`). -/
inductive EmittedMessage where
  | directory
  | url (u : String)
  | queue (u : String)
deriving Repr, DecidableEq

/-- The loop of `UraakajoshiTagExtractor.items` over the records of
`hashtag_timeline`, with the `seen_users` set accumulator: each new
truthy handle is queued as `<root>/user/<handle>` for the user
extractor. -/
def tagItemsAux : List String → List TagRecord → List EmittedMessage
  | _, [] => []
  | seen, r :: rs =>
    match tagUsername r with
    | none => tagItemsAux seen rs
    | some u =>
      if u ≠ "" ∧ u ∉ seen then
        .queue (root ++ "/user/" ++ u) :: tagItemsAux (u :: seen) rs
      else tagItemsAux seen rs

/-- `UraakajoshiTagExtractor.items` (`seen_users` starts empty). -/
def tagItems (records : List TagRecord) : List EmittedMessage :=
  tagItemsAux [] records

/-- First-seen-order de-duplication: keep each element's first
occurrence, drop the later duplicates. -/
def firstSeen : List String → List String
  | [] => []
  | x :: xs => x :: (firstSeen xs).filter (fun y => decide (y ≠ x))

/-- The truthy author handles of a feed, in record order. -/
def feedUsernames (records : List TagRecord) : List String :=
  records.filterMap (fun r =>
    match tagUsername r with
    | none => none
    | some u => if u = "" then none else some u)

theorem firstSeen_nodup : ∀ l : List String, (firstSeen l).Nodup := by
  intro l
  induction l with
  | nil => exact List.nodup_nil
  | cons x xs ih =>
    refine List.nodup_cons.mpr ⟨?_, ih.filter _⟩
    intro hx
    have := List.of_mem_filter hx
    simp at this

theorem firstSeen_mem : ∀ (l : List String) (u : String), u ∈ firstSeen l ↔ u ∈ l := by
  intro l
  induction l with
  | nil => intro u; rfl
  | cons x xs ih =>
    intro u
    by_cases hux : u = x
    · simp [firstSeen, hux]
    · simp [firstSeen, List.mem_cons, List.mem_filter, ih, hux]

theorem filter_comm_strings (p q : String → Bool) (m : List String) :
    (m.filter q).filter p = (m.filter p).filter q := by
  rw [List.filter_filter, List.filter_filter]
  exact List.filter_congr (fun a _ => Bool.and_comm (p a) (q a))

theorem filter_drop_ne {p : String → Bool} {x : String} (hx : p x = false) (m : List String) :
    (m.filter (fun y => decide (y ≠ x))).filter p = m.filter p := by
  rw [List.filter_filter]
  refine List.filter_congr (fun a _ => ?_)
  by_cases ha : a = x
  · subst ha; simp [hx]
  · simp [ha]

theorem firstSeen_filter (p : String → Bool) :
    ∀ l : List String, firstSeen (l.filter p) = (firstSeen l).filter p := by
  intro l
  induction l with
  | nil => rfl
  | cons x xs ih =>
    by_cases hx : p x
    · rw [List.filter_cons_of_pos hx]
      show x :: (firstSeen (xs.filter p)).filter (fun y => decide (y ≠ x))
          = (x :: (firstSeen xs).filter (fun y => decide (y ≠ x))).filter p
      rw [List.filter_cons_of_pos hx, ih,
        filter_comm_strings (fun y => decide (y ≠ x)) p (firstSeen xs)]
    · replace hx : p x = false := by
        cases hb : p x
        · rfl
        · exact absurd hb hx
      rw [List.filter_cons_of_neg (by simp [hx])]
      show firstSeen (xs.filter p)
          = (x :: (firstSeen xs).filter (fun y => decide (y ≠ x))).filter p
      rw [List.filter_cons_of_neg (by simp [hx]), ih, filter_drop_ne hx]

/-- The fan-out loop, generalized over the `seen_users` accumulator:
it emits one queue message per first occurrence of a handle outside
`seen`, in order. -/
theorem tagItemsAux_eq : ∀ (rs : List TagRecord) (seen : List String),
    tagItemsAux seen rs
      = (firstSeen ((feedUsernames rs).filter (fun u => decide (u ∉ seen)))).map
          (fun u => EmittedMessage.queue (root ++ "/user/" ++ u)) := by
  intro rs
  induction rs with
  | nil => intro seen; rfl
  | cons r rs ih =>
    intro seen
    cases hu : tagUsername r with
    | none =>
      have hfeed : feedUsernames (r :: rs) = feedUsernames rs := by
        simp [feedUsernames, List.filterMap_cons, hu]
      have hred : tagItemsAux seen (r :: rs) = tagItemsAux seen rs := by
        simp [tagItemsAux, hu]
      rw [hred, hfeed, ih]
    | some u =>
      by_cases hu0 : u = ""
      · have hfeed : feedUsernames (r :: rs) = feedUsernames rs := by
          simp [feedUsernames, List.filterMap_cons, hu, hu0]
        have hred : tagItemsAux seen (r :: rs) = tagItemsAux seen rs := by
          simp [tagItemsAux, hu, hu0]
        rw [hred, hfeed, ih]
      · have hfeed : feedUsernames (r :: rs) = u :: feedUsernames rs := by
          simp [feedUsernames, List.filterMap_cons, hu, hu0]
        by_cases hseen : u ∈ seen
        · have hred : tagItemsAux seen (r :: rs) = tagItemsAux seen rs := by
            simp [tagItemsAux, hu, hseen]
          rw [hred, hfeed, ih, List.filter_cons_of_neg (by simp [hseen])]
        · have hred : tagItemsAux seen (r :: rs)
              = .queue (root ++ "/user/" ++ u) :: tagItemsAux (u :: seen) rs := by
            simp [tagItemsAux, hu, hu0, hseen]
          have hsplit : (feedUsernames rs).filter (fun v => decide (v ∉ u :: seen))
              = ((feedUsernames rs).filter (fun v => decide (v ∉ seen))).filter
                  (fun v => decide (v ≠ u)) := by
            rw [List.filter_filter]
            refine List.filter_congr (fun a _ => ?_)
            by_cases h1 : a = u <;> by_cases h2 : a ∈ seen <;>
              simp [h1, h2, List.mem_cons]
          rw [hred, ih, hfeed, List.filter_cons_of_pos (by simp [hseen]), hsplit,
            firstSeen_filter]
          rfl

/-! ## C9: fan-out queues each author once, in first-seen order -/

/-- **C9.** The hashtag view queues exactly the distinct author handles
of the feed, each once, in first-seen record order, as `Queue` events
pointing at per-user crawls (never emitting files directly): its output
is the first-seen de-duplication of the feed's handles mapped to
`<root>/user/<handle>` queue messages; those handles are pairwise
distinct and are exactly the handles occurring in the feed; and a feed
with authors `[A, B, A, C]` queues exactly `A, B, C` in that order. -/
theorem tag_fanout_distinct_users (records : List TagRecord) :
    tagItems records
      = (firstSeen (feedUsernames records)).map
          (fun u => EmittedMessage.queue (root ++ "/user/" ++ u))
    ∧ (firstSeen (feedUsernames records)).Nodup
    ∧ (∀ u : String, u ∈ firstSeen (feedUsernames records) ↔ u ∈ feedUsernames records)
    ∧ tagItems [⟨some ⟨some "A"⟩⟩, ⟨some ⟨some "B"⟩⟩, ⟨some ⟨some "A"⟩⟩, ⟨some ⟨some "C"⟩⟩]
        = [.queue (root ++ "/user/A"), .queue (root ++ "/user/B"),
            .queue (root ++ "/user/C")] := by
  refine ⟨?_, firstSeen_nodup _, firstSeen_mem _, by decide⟩
  rw [tagItems, tagItemsAux_eq]
  congr 1
  congr 1
  exact List.filter_eq_self.mpr (fun a _ => by simp)

/-! ## C10: the `page_no + 1` fallback is dead code -/

/-- **C10.** Whenever the next-page check has passed (the only
situation in which `_fetch_timeline` advances), the response's `next`
field is present and non-null, so `data.get("next", page_no + 1)`
returns exactly the server-supplied `next` — the `page_no + 1` default
is unreachable: the computed next page does not depend on the fallback
argument at all. -/
theorem advance_fallback_unreachable {α : Type} (r : TimelineResponse α) (p : Int)
    (h : hasNextPage r = true) :
    ∃ n : Int, r.next = some n ∧ nextPageNo r p = n ∧ ∀ q : Int, nextPageNo r q = n := by
  cases hn : r.next with
  | none =>
    unfold hasNextPage at h
    rw [hn] at h
    exact Bool.noConfusion h
  | some n => exact ⟨n, rfl, by simp [nextPageNo, hn], fun q => by simp [nextPageNo, hn]⟩

/-- Witness for C10: a response with `next = 7` advances to page 7 no
matter what the current page number is. -/
theorem advance_fallback_unreachable_witness :
    hasNextPage (⟨[0], some 1, some 7⟩ : TimelineResponse Nat) = true
    ∧ nextPageNo (⟨[0], some 1, some 7⟩ : TimelineResponse Nat) 100 = 7 := by
  constructor
  · decide
  · obtain ⟨n, hn, hp, _⟩ :=
      advance_fallback_unreachable (⟨[0], some 1, some 7⟩ : TimelineResponse Nat) 100 (by decide)
    have hn7 : n = 7 := by
      have h7 : (some 7 : Option Int) = some n := hn
      exact (Option.some.inj h7).symm
    rw [hp, hn7]

end Uraakajoshi
